import Mathlib

/-!
Shallow embedding of the transaction-report pipeline of this repository
(`budged/parser.py`, `budged/categories.py`, `budged/aggregator.py`,
`budged/formatter.py`) and proofs about its specification claims.

Strings are modelled as Lean `String`/`List Char` (Python `len` and indexing
are over code points, as here).  Python `float` amounts are modelled as exact
rationals `ℚ`; regular-expression searches are modelled by explicit
left-to-right scans that implement the same deterministic matching the
concrete patterns perform (all the character classes involved are disjoint,
so the regex engines' backtracking never changes the outcome).
-/

namespace Budged

set_option maxRecDepth 4000

/-! ## Definitions -/

/-- Python's whitespace class (`\s` in `re` on `str`, and `str.strip`):
the characters for which `str.isspace()` holds. -/
def isPySpace (c : Char) : Bool :=
  c == ' ' || c == '\t' || c == '\n' || c == '\r' || c == '\x0b' || c == '\x0c' ||
  c == '\x1c' || c == '\x1d' || c == '\x1e' || c == '\x1f' || c == '\x85' || c == '\xa0' ||
  c == ' ' || (' ' ≤ c && c ≤ ' ') || c == ' ' || c == ' ' ||
  c == ' ' || c == ' ' || c == '　'

/-- `str.lstrip()` on a list of characters. -/
def lstrip (l : List Char) : List Char := l.dropWhile isPySpace

/-- `str.rstrip()` on a list of characters. -/
def rstrip (l : List Char) : List Char := (l.reverse.dropWhile isPySpace).reverse

/-- Python `str.strip()` on a list of characters. -/
def pstrip (l : List Char) : List Char := rstrip (lstrip l)

/-- Python `str.strip()` on strings. -/
def strStrip (s : String) : String := ⟨pstrip s.data⟩

/-- The character class kept by `re.sub(r"[^\d\.\-]", "", ...)` in `parse_sum`:
digits, the dot and the minus sign. -/
def isNumChar (c : Char) : Bool := c.isDigit || c == '.' || c == '-'

/-- Decimal value of a digit list (most significant first). -/
def digitsNat (l : List Char) : ℕ :=
  l.foldl (fun n c => 10 * n + (c.toNat - '0'.toNat)) 0

/-- The digit-level part of Python `float(...)` on a string made only of
digits, dots and minus signs, after the optional leading minus:
`digits [ "." digits ]` with at least one digit overall and nothing left
over.  Returns (integer-part value, fraction-part value, number of fraction
digits); `none` models `ValueError`. -/
def pyFloatParts (l : List Char) : Option (ℕ × ℕ × ℕ) :=
  let ip := l.takeWhile Char.isDigit
  let r1 := l.dropWhile Char.isDigit
  match r1 with
  | [] => if ip = [] then none else some (digitsNat ip, 0, 0)
  | '.' :: r2 =>
    let fp := r2.takeWhile Char.isDigit
    let r3 := r2.dropWhile Char.isDigit
    if r3 = [] ∧ (ip ≠ [] ∨ fp ≠ []) then some (digitsNat ip, digitsNat fp, fp.length)
    else none
  | _ => none

/-- Python `float(...)` on a string whose characters are digits, dots and
minus signs (the alphabet `parse_sum` feeds it): an optional leading minus
followed by an unsigned decimal. -/
def pyFloatOfClean (l : List Char) : Option ℚ :=
  if l.head? = some '-' then
    (pyFloatParts l.tail).map (fun p => -((p.1 : ℚ) + (p.2.1 : ℚ) / 10 ^ p.2.2))
  else
    (pyFloatParts l).map (fun p => (p.1 : ℚ) + (p.2.1 : ℚ) / 10 ^ p.2.2)

/-- `parse_sum` from `budged/parser.py`: strip every character that is not a
digit, dot or minus, then `float(...)` with `0.0` on `ValueError`. -/
def parse_sum (s : String) : ℚ :=
  match pyFloatOfClean (s.data.filter isNumChar) with
  | some q => q
  | none => 0

/-- `pat.isPrefixOf l` up to the case pairs: every pattern position is an
(upper, lower) pair of characters, as Python `re.IGNORECASE` folds them.
On success returns the rest of the input after the label. -/
def matchLabelCI : List (Char × Char) → List Char → Option (List Char)
  | [], l => some l
  | _ :: _, [] => none
  | p :: ps, c :: cs => if c = p.1 ∨ c = p.2 then matchLabelCI ps cs else none

/-- The label `MCC:` with its two case variants per position. -/
def mccLabelLat : List (Char × Char) := [('M', 'm'), ('C', 'c'), ('C', 'c'), (':', ':')]

/-- The localized Cyrillic label `МСС:` (У+041C, У+0421) with its lowercase
variants, as `re.IGNORECASE` matches them. -/
def mccLabelCyr : List (Char × Char) := [('М', 'м'), ('С', 'с'), ('С', 'с'), (':', ':')]

/-- Try one alternative of the pattern `MCC:\s*(\d{4})|МСС:\s*(\d{4})` at the
start of `l`: the label, then greedily `\s*`, then four digits (the group
takes the first four digits; `\s` and `\d` are disjoint so backtracking never
helps). -/
def tryMccAt (pat : List (Char × Char)) (l : List Char) : Option (List Char) :=
  match matchLabelCI pat l with
  | none => none
  | some rest =>
    match rest.dropWhile isPySpace with
    | a :: b :: c :: d :: _ =>
      if a.isDigit ∧ b.isDigit ∧ c.isDigit ∧ d.isDigit then some [a, b, c, d] else none
    | _ => none

/-- `re.search(r"MCC:\s*(\d{4})|МСС:\s*(\d{4})", s, re.IGNORECASE)`: scan
positions left to right, trying the left alternative first at each. -/
def mccSearch : List Char → Option (List Char)
  | [] => none
  | c :: rest =>
    match tryMccAt mccLabelLat (c :: rest) with
    | some ds => some ds
    | none =>
      match tryMccAt mccLabelCyr (c :: rest) with
      | some ds => some ds
      | none => mccSearch rest

/-- Characters of the masked-account class `[\d\*]`. -/
def isMaskChar (c : Char) : Bool := c.isDigit || c == '*'

/-- Try `Receiver:\s*([\d\*]+)` at the start of `l` (case-sensitive): the
label, then greedily `\s*`, then a nonempty greedy run of digits/asterisks. -/
def tryRecvAt (l : List Char) : Option (List Char) :=
  match matchLabelCI ("Receiver:".data.map (fun c => (c, c))) l with
  | none => none
  | some rest =>
    let run := (rest.dropWhile isPySpace).takeWhile isMaskChar
    if run = [] then none else some run

/-- `re.search(r"Receiver:\s*([\d\*]+)", s)`: scan positions left to right. -/
def recvSearch : List Char → Option (List Char)
  | [] => none
  | c :: rest =>
    match tryRecvAt (c :: rest) with
    | some run => some run
    | none => recvSearch rest

/-- Substring test: Python `kw in s`. -/
def isSubstr (pat l : List Char) : Bool := l.tails.any (fun t => pat.isPrefixOf t)

/-- The ordered bank keyword table of `parse_details` (Python dicts preserve
insertion order, so iteration follows this list order). -/
def bank_keywords : List (String × List String) :=
  [("Halyk Bank", ["JSC Halyk Bank", "Halyk Bank"]),
   ("Kaspi Bank", ["Kaspi Bank"]),
   ("Freedom Bank", ["Freedom Bank"]),
   ("Jusan Bank", ["Jusan Bank"]),
   ("Bereke Bank", ["Bereke Bank"]),
   ("BCC", ["BCC"])]

/-- The `for bank_name, keywords in bank_keywords.items(): if any(...)` loop:
the first pair with any keyword present as a substring wins. -/
def findBank (l : List Char) : Option String :=
  (bank_keywords.find? (fun p => p.2.any (fun kw => isSubstr kw.data l))).map (·.1)

/-- The parsed `Details` record (`details_map` in `parse_details`). -/
structure DetailsMap where
  raw : String
  merchant : Option String
  bank : Option String
  mcc : Option String
  payment_method : Option String
  receiver_account : Option String
deriving DecidableEq

/-- `parse_details` from `budged/parser.py`.  `str.upper()` is modelled
per-character by `Char.toUpper` (ASCII case mapping; the wallet token being
searched is pure ASCII). -/
def parse_details (s : String) : DetailsMap :=
  let l := s.data
  let receiver := recvSearch l
  { raw := ⟨pstrip l⟩
    mcc := (mccSearch l).map (fun ds => ⟨ds⟩)
    payment_method :=
      if isSubstr "APPLE PAY".data (l.map Char.toUpper) then some "APPLE PAY" else none
    bank := findBank l
    receiver_account := receiver.map (fun r => ⟨r⟩)
    merchant :=
      if (',' ∈ l) ∧ receiver = none then some ⟨pstrip (l.takeWhile (· ≠ ','))⟩ else none }

/-- `DATE_PATTERN = ^\d{2}\.\d{2}\.\d{4}$` applied with `.match` to a
stripped cell: exactly two digits, dot, two digits, dot, four digits. -/
def dateMatch : List Char → Bool
  | [a, b, '.', c, d, '.', e, f, g, h] =>
    a.isDigit && b.isDigit && c.isDigit && d.isDigit &&
    e.isDigit && f.isDigit && g.isDigit && h.isDigit
  | _ => false

/-- `SUM_PATTERN = ^-?[\d,.]+\s+KZT$` applied with `.match` to a stripped
cell.  The classes `[\d,.]`, `\s` and the literal `KZT` are disjoint, so the
regex match is equivalent to maximal-munch runs. -/
def sumMatch (l : List Char) : Bool :=
  let l1 := if l.head? = some '-' then l.tail else l
  let run := l1.takeWhile (fun c => c.isDigit || c == ',' || c == '.')
  let rest := l1.dropWhile (fun c => c.isDigit || c == ',' || c == '.')
  let sp := rest.takeWhile isPySpace
  let rest2 := rest.dropWhile isPySpace
  run ≠ [] && sp ≠ [] && rest2 = "KZT".data

/-- `_is_data_row` from `budged/parser.py`: a raw table row (cells may be
`None`) holds transaction data iff it has at least four cells, its first two
cells are present and nonempty, and the stripped date and amount cells match
the two patterns. -/
def _is_data_row (row : List (Option String)) : Bool :=
  match row with
  | c0 :: c1 :: _ :: _ :: _ =>
    match c0, c1 with
    | some date, some sum_str =>
      if date = "" ∨ sum_str = "" then false
      else dateMatch (pstrip date.data) && sumMatch (pstrip sum_str.data)
    | _, _ => false
  | _ => false

/-- `re.sub(r"(?<![,.])\n", " ", s)`: replace every newline whose original
predecessor is not a comma or period (or that starts the string) by a space.
The lookbehind inspects the input, so the original previous character is
threaded through. -/
def subNl (prev : Option Char) : List Char → List Char
  | [] => []
  | c :: rest =>
    (if c = '\n' ∧ prev ≠ some ',' ∧ prev ≠ some '.' then ' ' else c) :: subNl (some c) rest

/-- `re.sub(r"([,.])\n", r"\1 ", s)`: replace a comma/period immediately
followed by a newline with that character and a space, scanning
non-overlapping matches left to right. -/
def subPunctNl : List Char → List Char
  | [] => []
  | [c] => [c]
  | c :: d :: rest =>
    if (c = ',' ∨ c = '.') ∧ d = '\n' then c :: ' ' :: subPunctNl rest
    else c :: subPunctNl (d :: rest)

/-- Fuel-indexed helper for `subWs`; the fuel only drives structural
recursion and is irrelevant whenever it is at least `l.length - 1`
(`subWsF_fuel`). -/
def subWsF : ℕ → List Char → List Char
  | _, [] => []
  | _, [c] => [c]
  | fuel + 1, c :: d :: rest =>
    if isPySpace c then
      if isPySpace d then ' ' :: subWsF fuel (rest.dropWhile isPySpace)
      else c :: subWsF fuel (d :: rest)
    else c :: subWsF fuel (d :: rest)
  | 0, c :: d :: rest => c :: d :: rest

/-- `re.sub(r"\s{2,}", " ", s)`: each maximal run of two or more whitespace
characters collapses to a single space (greedy maximal munch). -/
def subWs (l : List Char) : List Char := subWsF l.length l

/-- `_clean_details` from `budged/parser.py` on the character list of a
(present) details string; `None` and `""` both return `""` in the source, and
both are the empty list here. -/
def cleanDetailsL (l : List Char) : List Char :=
  if l = [] then [] else pstrip (subWs (subPunctNl (subNl none l)))

/-- `_clean_details` from `budged/parser.py`. -/
def _clean_details (s : String) : String := ⟨cleanDetailsL s.data⟩

/-- `mcc2name` from `budged/categories.py`. -/
def mcc2name : List (String × String) :=
  [("5411", "Grocery Stores, Supermarkets"),
   ("5814", "Fast Food Restaurants"),
   ("5812", "Eating Places, Restaurants"),
   ("5977", "Cosmetic Stores"),
   ("5943", "Stationery, Office Supplies"),
   ("5199", "Nondurable Goods"),
   ("4121", "Taxicabs and Limousines"),
   ("5995", "Pet Shops"),
   ("5691", "Men's and Women's Clothing Stores"),
   ("5200", "Home Supply Warehouse Stores"),
   ("5311", "Department Stores"),
   ("7941", "Athletic Fields, Commercial Sports"),
   ("5262", "Marketplaces"),
   ("5912", "Drug Stores and Pharmacies"),
   ("5541", "Service Stations (Gas)"),
   ("8099", "Medical Services"),
   ("5331", "Variety Stores"),
   ("4829", "Money Orders / Wire Transfer"),
   ("4215", "Courier Services"),
   ("1750", "Carpentry Contractors"),
   ("7832", "Motion Picture Theaters"),
   ("5641", "Children's and Infant's Wear Stores"),
   ("3068", "Airlines"),
   ("5499", "Miscellaneous Food Stores"),
   ("8071", "Dental and Medical Laboratories")]

/-- `dict.get(k, dflt)` on an insertion-ordered table. -/
def dictGet (m : List (String × String)) (k : String) (dflt : String) : String :=
  match m.find? (fun p => p.1 = k) with
  | some p => p.2
  | none => dflt

/-- A parsed transaction row, as built by `parse_row`: the dict with keys
`Date`, `Sum`, `Description`, `Details`. -/
structure Txn where
  Date : String
  Sum : ℚ
  Description : String
  Details : DetailsMap
deriving DecidableEq

/-- `mcc2name.get(mcc_code, "Unknown/No MCC") if mcc_code else "No MCC"`:
the category name of a transaction's optional MCC code (Python's truth test
also treats the empty string as missing). -/
def mccName (mcc : Option String) : String :=
  match mcc with
  | none => "No MCC"
  | some c => if c = "" then "No MCC" else dictGet mcc2name c "Unknown/No MCC"

/-- An aggregation table: a `defaultdict(float)` keyed by
(description, category name), in insertion order. -/
abbrev AggTable := List ((String × String) × ℚ)

/-- `aggregated[k] += v` on a `defaultdict(float)`: update the entry in
place if the key is present, else append it with the missing-key default 0. -/
def addTo (tbl : AggTable) (k : String × String) (v : ℚ) : AggTable :=
  match tbl with
  | [] => [(k, v)]
  | (k', v') :: rest => if k' = k then (k', v' + v) :: rest else (k', v') :: addTo rest k v

/-- One loop iteration of `group_by_description_and_mcc`. -/
def groupStep (acc : AggTable) (row : Txn) : AggTable :=
  let name := mccName row.Details.mcc
  if row.Description = "Purchase with bonuses" then
    addTo (addTo acc ("Purchase", name) row.Sum) ("Saved with bonuses", name) row.Sum
  else
    addTo acc (row.Description, name) row.Sum

/-- `group_by_description_and_mcc` from `budged/aggregator.py`. -/
def group_by_description_and_mcc (data : List Txn) : AggTable :=
  data.foldl groupStep []

/-- The summary record returned by `compute_purchase_totals`. -/
structure Totals where
  purchase_total : ℚ
  bonuses_total : ℚ
  net_purchases : ℚ
  grand_total : ℚ
  income_total : ℚ
deriving DecidableEq

/-- One loop iteration of `compute_purchase_totals`: the running state is
(purchase_total, bonuses_total, grand_total, income_total). -/
def totalsStep (acc : ℚ × ℚ × ℚ × ℚ) (row : Txn) : ℚ × ℚ × ℚ × ℚ :=
  let grand := acc.2.2.1 + row.Sum
  let income := if row.Sum > 0 then acc.2.2.2 + row.Sum else acc.2.2.2
  if row.Description = "Purchase with bonuses" then
    (acc.1 + row.Sum, acc.2.1 + row.Sum, grand, income)
  else if row.Description = "Purchase" then
    (acc.1 + row.Sum, acc.2.1, grand, income)
  else
    (acc.1, acc.2.1, grand, income)

/-- `compute_purchase_totals` from `budged/aggregator.py`. -/
def compute_purchase_totals (data : List Txn) : Totals :=
  let s := data.foldl totalsStep (0, 0, 0, 0)
  { purchase_total := s.1
    bonuses_total := s.2.1
    net_purchases := s.1 - s.2.1
    grand_total := s.2.2.1
    income_total := s.2.2.2 }

def SORT_BY_SUM : String := "sum"

def SORT_BY_NAME : String := "name"

def SORT_BY_DATE : String := "date"

def FMT_SIMPLE : String := "simple"

def FMT_ASCII : String := "ascii"

/-- Python code-point lexicographic `≤` on strings (as lists of chars). -/
def charsLe : List Char → List Char → Bool
  | [], _ => true
  | _ :: _, [] => false
  | a :: as, b :: bs => if a = b then charsLe as bs else decide (a < b)

/-- Python tuple `≤` on string pairs. -/
def strPairLe (x y : String × String) : Bool :=
  if x.1 = y.1 then charsLe x.2.data y.2.data else charsLe x.1.data y.1.data

/-- Python list-of-strings lexicographic `≤` (for the `date` sort key). -/
def strListLe : List String → List String → Bool
  | [], _ => true
  | _ :: _, [] => false
  | a :: as, b :: bs => if a = b then strListLe as bs else charsLe a.data b.data

/-- `_sort_key` as a `≤`-comparator on aggregation items: `sorted` with key
`_sort_key(·, sort_by)` is a stable ascending sort, which `mergeSort` with
this total comparator reproduces.  For `name` the key is the (desc, category)
pair; for every other value of `sort_by` it is the total. -/
def itemLe (sort_by : String) (a b : (String × String) × ℚ) : Bool :=
  if sort_by = SORT_BY_NAME then strPairLe a.1 b.1 else decide (a.2 ≤ b.2)

/-- `sorted(agg.items(), key=lambda it: _sort_key(it, sort_by))` in
`format_aggregated`. -/
def sorted_items (agg : AggTable) (sort_by : String) : AggTable :=
  agg.mergeSort (itemLe sort_by)

/-- The display loop of `format_aggregated`: fold the sorted items into
(purchase_total, bonuses_total, display_items), diverting
`"Saved with bonuses"` rows into the bonus total. -/
def agg_fold (items : AggTable) : ℚ × ℚ × List (String × String × ℚ) :=
  items.foldl
    (fun acc it =>
      if it.1.1 = "Saved with bonuses" then (acc.1, acc.2.1 + it.2, acc.2.2)
      else if it.1.1 = "Purchase" then
        (acc.1 + it.2, acc.2.1, acc.2.2 ++ [(it.1.1, it.1.2, it.2)])
      else (acc.1, acc.2.1, acc.2.2 ++ [(it.1.1, it.1.2, it.2)]))
    (0, 0, [])

/-- Digit character of a value `< 10`. -/
def digitChar (n : ℕ) : Char := Char.ofNat ('0'.toNat + n)

/-- Decimal digit list of a natural number (helper with fuel). -/
def natDigitsAux : ℕ → ℕ → List Char
  | 0, _ => []
  | fuel + 1, n => if n = 0 then [] else natDigitsAux fuel (n / 10) ++ [digitChar (n % 10)]

/-- Decimal digit list of a natural number. -/
def natStr (n : ℕ) : List Char := if n = 0 then ['0'] else natDigitsAux (n + 1) n

/-- Insert a comma after every third digit, counting from the right; input
and output are reversed digit lists. -/
def group3Rev : List Char → List Char
  | a :: b :: c :: d :: rest => a :: b :: c :: ',' :: group3Rev (d :: rest)
  | l => l

/-- Python `round` to an integer number of hundredths: round half to even.
(The source rounds IEEE doubles; on the exact rationals of this model the
decimal ties are resolved half-to-even, Python's rounding mode.) -/
def pyRound2 (q : ℚ) : ℤ :=
  let x := q * 100
  let f := ⌊x⌋
  let r := x - (f : ℚ)
  if r < 1 / 2 then f else if 1 / 2 < r then f + 1 else if f % 2 = 0 then f else f + 1

/-- Python `f"{q:,.2f}"` (with `comma = true`) and `f"{q:.2f}"` (with
`comma = false`): sign, integer digits (optionally grouped by thousands),
point, two fraction digits. -/
def fmtFixed2 (q : ℚ) (comma : Bool) : String :=
  let n := pyRound2 q
  let m := n.natAbs
  let ip := if comma then (group3Rev (natStr (m / 100)).reverse).reverse else natStr (m / 100)
  ⟨(if q < 0 then ['-'] else []) ++ ip ++ ['.', digitChar (m % 100 / 10), digitChar (m % 100 % 10)]⟩

/-- A table cell as passed to `format_ascii_table`: the callers only pass
strings and floats (the `None` branch of `_stringify` is unused by them). -/
inductive Cell
  | str (s : String)
  | num (q : ℚ)
deriving DecidableEq

/-- `_stringify` from `budged/formatter.py` on the cells the callers build. -/
def _stringify : Cell → String
  | .num q => fmtFixed2 q true
  | .str s => s

/-- `cell.replace(",", "").replace(".", "").replace("-", "").isdigit()`:
after deleting separators and minus signs, a nonempty all-digit string. -/
def isNumLike (s : String) : Bool :=
  let t := s.data.filter (fun c => ¬(c = ',' ∨ c = '.' ∨ c = '-'))
  t ≠ [] && t.all Char.isDigit

/-- One row's contribution to the running column widths. -/
def updWidths : List ℕ → List String → List ℕ
  | ws, [] => ws
  | [], _ => []
  | w :: ws, c :: cs => max w c.length :: updWidths ws cs

/-- The `sep` helper of `format_ascii_table`. -/
def sepLine (l m r : Char) (ws : List ℕ) : String :=
  ⟨[l] ++ List.intercalate [m] (ws.map (fun w => List.replicate (w + 2) '─')) ++ [r]⟩

/-- Right- or left-justify a cell to its column width (`rjust`/`ljust`). -/
def padCell (w : ℕ) (s : String) : List Char :=
  if isNumLike s then List.replicate (w - s.length) ' ' ++ s.data
  else s.data ++ List.replicate (w - s.length) ' '

/-- The `data_line` helper of `format_ascii_table`. -/
def dataLine (ws : List ℕ) (cells : List String) : String :=
  ⟨"│ ".data ++ List.intercalate " │ ".data ((ws.zip cells).map (fun p => padCell p.1 p.2)) ++
    " │".data⟩

/-- `format_ascii_table` from `budged/formatter.py`. -/
def format_ascii_table (headers : List String) (rows : List (List Cell))
    (title : Option String) : String :=
  let strRows := rows.map (·.map _stringify)
  let ws := strRows.foldl updWidths (headers.map (·.length))
  let lines :=
    (match title with | some t => [t] | none => []) ++
    [sepLine '┌' '┬' '┐' ws, dataLine ws headers, sepLine '├' '┼' '┤' ws] ++
    strRows.map (dataLine ws) ++ [sepLine '└' '┴' '┘' ws]
  String.intercalate "\n" lines

/-- `format_aggregated` from `budged/formatter.py`. -/
def format_aggregated (agg : AggTable) (title : String) (sort_by : String) (fmt : String) :
    String :=
  let t := agg_fold (sorted_items agg sort_by)
  let purchase_total := t.1
  let bonuses_total := t.2.1
  let display_items := t.2.2
  if fmt = FMT_ASCII then
    let headers := ["Description", "Category", "Sum (KZT)"]
    let rows := display_items.map (fun r => [Cell.str r.1, Cell.str r.2.1, Cell.num r.2.2]) ++
      [[Cell.str "", Cell.str "", Cell.str ""],
       [Cell.str "Total purchases", Cell.str "", Cell.num purchase_total],
       [Cell.str "Saved with bonuses", Cell.str "", Cell.num bonuses_total],
       [Cell.str "Net purchases", Cell.str "", Cell.num (purchase_total + bonuses_total)]]
    format_ascii_table headers rows (some (title ++ " (sorted by " ++ sort_by ++ ")"))
  else
    let lines := ["--- " ++ title ++ " (sorted by " ++ sort_by ++ ") ---"] ++
      display_items.map (fun r =>
        "  (" ++ r.1 ++ ", " ++ r.2.1 ++ "): " ++ fmtFixed2 r.2.2 false ++ " KZT") ++
      ["  " ++ ⟨List.replicate 40 '—'⟩,
       "  Total purchases:        " ++ fmtFixed2 purchase_total false ++ " KZT",
       "  Saved with bonuses:     " ++ fmtFixed2 bonuses_total false ++ " KZT",
       "  Net purchases:          " ++ fmtFixed2 (purchase_total + bonuses_total) false ++ " KZT"]
    String.intercalate "\n" lines

/-- `r["Date"].split(".")[::-1]`, the `date` sort key. -/
def dateKey (s : String) : List String := (s.splitOn ".").reverse

/-- The sort dispatch at the top of `format_raw_report`; an unrecognized
`sort_by` leaves the data in input order. -/
def raw_sorted (data : List Txn) (sort_by : String) : List Txn :=
  if sort_by = SORT_BY_DATE then
    data.mergeSort (fun a b => strListLe (dateKey a.Date) (dateKey b.Date))
  else if sort_by = SORT_BY_SUM then data.mergeSort (fun a b => decide (a.Sum ≤ b.Sum))
  else if sort_by = SORT_BY_NAME then
    data.mergeSort (fun a b =>
      strPairLe (a.Description, a.Details.raw) (b.Description, b.Details.raw))
  else data

/-- Python `x or ""` on an optional string. -/
def orEmpty (o : Option String) : String :=
  match o with
  | some s => s
  | none => ""

/-- The per-row display label of `format_raw_report`: a masked card form
when a (truthy) receiver account is present, else the merchant guess or
blank.  `receiver[-4:]` is the last four characters. -/
def rowLabel (row : Txn) : String :=
  match row.Details.receiver_account with
  | some r => if r ≠ "" then "card *" ++ ⟨r.data.drop (r.data.length - 4)⟩
      else orEmpty row.Details.merchant
  | none => orEmpty row.Details.merchant

/-- The main loop of `format_raw_report`: the running state is
(purchase_total, bonuses_total, grand_total, display_rows), where a display
row is (date, displayed kind, label, mcc text, amount). -/
def raw_fold (sorted_data : List Txn) : ℚ × ℚ × ℚ × List (String × String × String × String × ℚ) :=
  sorted_data.foldl
    (fun acc row =>
      let grand := acc.2.2.1 + row.Sum
      let mk := fun (desc : String) (p b : ℚ) =>
        (p, b, grand,
          acc.2.2.2 ++ [(row.Date, desc, rowLabel row, orEmpty row.Details.mcc, row.Sum)])
      if row.Description = "Purchase with bonuses" then
        mk "Purchase" (acc.1 + row.Sum) (acc.2.1 + row.Sum)
      else if row.Description = "Purchase" then mk "Purchase" (acc.1 + row.Sum) acc.2.1
      else mk row.Description acc.1 acc.2.1)
    (0, 0, 0, [])

/-- `f"{s:<12}"`: left-justify to width 12. -/
def ljust12 (s : String) : String := ⟨s.data ++ List.replicate (12 - s.length) ' '⟩

/-- `f"{q:>12.2f}"`: fixed two decimals right-justified to width 12. -/
def rjust12f (q : ℚ) : String :=
  let t := fmtFixed2 q false
  ⟨List.replicate (12 - t.length) ' ' ++ t.data⟩

/-- `format_raw_report` from `budged/formatter.py`. -/
def format_raw_report (parsed_data : List Txn) (sort_by : String) (fmt : String) : String :=
  let sd := raw_sorted parsed_data sort_by
  let t := raw_fold sd
  let purchase_total := t.1
  let bonuses_total := t.2.1
  let grand_total := t.2.2.1
  let display_rows := t.2.2.2
  if fmt = FMT_ASCII then
    let headers := ["Date", "Type", "Description", "MCC", "Sum (KZT)"]
    let rows := display_rows.map (fun r =>
        [Cell.str r.1, Cell.str r.2.1, Cell.str r.2.2.1, Cell.str r.2.2.2.1,
         Cell.num r.2.2.2.2]) ++
      [[Cell.str "", Cell.str "", Cell.str "", Cell.str "", Cell.str ""],
       [Cell.str "", Cell.str "Total purchases", Cell.str "", Cell.str "",
        Cell.num purchase_total],
       [Cell.str "", Cell.str "Saved with bonuses", Cell.str "", Cell.str "",
        Cell.num bonuses_total],
       [Cell.str "", Cell.str "Net purchases", Cell.str "", Cell.str "",
        Cell.num (purchase_total - bonuses_total)],
       [Cell.str "", Cell.str "Grand total", Cell.str "", Cell.str "", Cell.num grand_total]]
    format_ascii_table headers rows (some ("Raw Transactions (sorted by " ++ sort_by ++ ")"))
  else
    let lines := ["--- Raw Transactions (sorted by " ++ sort_by ++ ") ---"] ++
      display_rows.map (fun r =>
        let suffix := if r.2.2.2.1 ≠ "" then r.2.2.1 ++ " [" ++ r.2.2.2.1 ++ "]"
          else if r.2.2.1 ≠ "" then r.2.2.1 else "—"
        "  " ++ r.1 ++ "  " ++ ljust12 r.2.1 ++ "  " ++ rjust12f r.2.2.2.2 ++ " KZT  " ++
          suffix) ++
      ["  " ++ ⟨List.replicate 50 '—'⟩,
       "  Total purchases:        " ++ fmtFixed2 purchase_total false ++ " KZT",
       "  Saved with bonuses:     " ++ fmtFixed2 bonuses_total false ++ " KZT",
       "  Net purchases:          " ++ fmtFixed2 (purchase_total - bonuses_total) false ++
         " KZT",
       "  Grand total:            " ++ fmtFixed2 grand_total false ++ " KZT"]
    String.intercalate "\n" lines

/-- Value stored for a key in an aggregation table (0 when absent, the
`defaultdict(float)` default). -/
def tblGet : AggTable → (String × String) → ℚ
  | [], _ => 0
  | (k', v) :: rest, k => if k' = k then v else tblGet rest k

/-- `sum(tbl.values())`. -/
def tblSum (tbl : AggTable) : ℚ := (tbl.map (·.2)).sum

/-- What a single transaction adds at a given key of the aggregation table,
as the specification describes it: a `"Purchase with bonuses"` transaction
posts its amount at both `("Purchase", name)` and
`("Saved with bonuses", name)`; every other transaction posts its amount only
at `(kind, name)`. -/
def contribToKey (t : Txn) (k : String × String) : ℚ :=
  let name := mccName t.Details.mcc
  if t.Description = "Purchase with bonuses" then
    (if k = ("Purchase", name) then t.Sum else 0) +
      (if k = ("Saved with bonuses", name) then t.Sum else 0)
  else if k = (t.Description, name) then t.Sum else 0

/-- What a single transaction adds to the total mass of the table: its
amount, twice for a `"Purchase with bonuses"` row. -/
def massContrib (t : Txn) : ℚ :=
  if t.Description = "Purchase with bonuses" then t.Sum + t.Sum else t.Sum

/-- Sum of the amounts of the transactions satisfying `p`. -/
def sumWhere (data : List Txn) (p : Txn → Prop) [DecidablePred p] : ℚ :=
  ((data.filter (fun t => decide (p t))).map (·.Sum)).sum

/-- The single-transaction statement of the end-to-end test: one
`"Purchase with bonuses"` row of amount `-1500.00` whose MCC code `"9999"`
is absent from the code table. -/
def exTxnBonus : Txn :=
  { Date := "01.02.2024"
    Sum := -1500
    Description := "Purchase with bonuses"
    Details :=
      { raw := "x", merchant := none, bank := none, mcc := some "9999",
        payment_method := none, receiver_account := none } }

/-- The two-alternative attempt of the MCC pattern at one position. -/
def tryMccBoth (t : List Char) : Option (List Char) :=
  match tryMccAt mccLabelLat t with
  | some ds => some ds
  | none => tryMccAt mccLabelCyr t

/-- Adjacent-pair invariant kept by `subNl`: a newline may only follow a
comma or a period. -/
def NlR (a b : Char) : Prop := b = '\n' → a = ',' ∨ a = '.'

/-- Adjacent-pair invariant produced by `subWs`: no two adjacent whitespace
characters. -/
def noAdjR (a b : Char) : Prop := ¬(isPySpace a = true ∧ isPySpace b = true)

/-- Sum of the values of the table entries whose description part is `d`. -/
def aggDescSum (d : String) (tbl : AggTable) : ℚ :=
  ((tbl.filter (fun it => decide (it.1.1 = d))).map (·.2)).sum

/-- What one transaction adds to the `d`-keyed mass of the table. -/
def descContrib (d : String) (t : Txn) : ℚ :=
  if t.Description = "Purchase with bonuses" then
    (if "Purchase" = d then t.Sum else 0) + (if "Saved with bonuses" = d then t.Sum else 0)
  else if t.Description = d then t.Sum else 0

/-- An empty details record, for adversarial example transactions. -/
def emptyDetails : DetailsMap :=
  { raw := "", merchant := none, bank := none, mcc := none, payment_method := none,
    receiver_account := none }

/-- A transaction whose bank-supplied kind is literally the pseudo-label
`"Saved with bonuses"` that `format_aggregated` uses for its bonus rows. -/
def exTxnSaved : Txn :=
  { Date := "01.02.2024", Sum := 1, Description := "Saved with bonuses",
    Details := emptyDetails }

/-! ## Theorems -/

example : parse_sum "-30000.00 KZT" = -30000 := by
  have h : "-30000.00 KZT".data.filter isNumChar = '-' :: "30000.00".data := by decide
  have h2 : pyFloatParts "30000.00".data = some (30000, 0, 2) := by decide
  rw [parse_sum, h, pyFloatOfClean, if_pos (by decide)]
  simp only [List.tail_cons, h2, Option.map_some']
  norm_num

example : parse_sum "garbage" = 0 := by decide

example : parse_sum "1.5" = 3/2 := by
  have h : "1.5".data.filter isNumChar = ['1', '.', '5'] := by decide
  have h2 : pyFloatParts ['1', '.', '5'] = some (1, 5, 1) := by decide
  rw [parse_sum, h, pyFloatOfClean, if_neg (by decide)]
  simp only [h2, Option.map_some']
  norm_num

example :
    parse_details "MAGNUM CASH&CARRY, JSC Halyk Bank, MCC: 5411, APPLE PAY" =
      { raw := "MAGNUM CASH&CARRY, JSC Halyk Bank, MCC: 5411, APPLE PAY"
        merchant := some "MAGNUM CASH&CARRY"
        bank := some "Halyk Bank"
        mcc := some "5411"
        payment_method := some "APPLE PAY"
        receiver_account := none } := by decide

example :
    parse_details "Receiver: 440043******8791" =
      { raw := "Receiver: 440043******8791"
        merchant := none
        bank := none
        mcc := none
        payment_method := none
        receiver_account := some "440043******8791" } := by decide

example : _is_data_row [some "Date", some "Sum", some "Description", some "Details"] = false := by
  decide

example : _is_data_row [some "01.02.2024", some "-1,500.00 KZT", some "Purchase", some "x"] =
    true := by decide

example : _is_data_row [some "31.13.2026", some "5.00 KZT", some "x", some "y"] = true := by decide

theorem subWsF_fuel (fuel : ℕ) :
    ∀ (fuel' : ℕ) (l : List Char), l.length ≤ fuel + 1 → l.length ≤ fuel' + 1 →
      subWsF fuel l = subWsF fuel' l := by
  induction fuel with
  | zero =>
    intro fuel' l h h'
    match l with
    | [] => cases fuel' <;> rfl
    | [c] => cases fuel' <;> rfl
    | c :: d :: rest => simp at h
  | succ f ih =>
    intro fuel' l h h'
    match l with
    | [] => cases fuel' <;> rfl
    | [c] => cases fuel' <;> rfl
    | c :: d :: rest =>
      match fuel' with
      | 0 => simp at h'
      | f' + 1 =>
        simp only [List.length_cons] at h h'
        have hdw := (List.dropWhile_sublist (l := rest) isPySpace).length_le
        simp only [subWsF]
        by_cases hc : isPySpace c
        · by_cases hd : isPySpace d
          · rw [if_pos hc, if_pos hc, if_pos hd, if_pos hd,
              ih f' (rest.dropWhile isPySpace) (by omega) (by omega)]
          · rw [if_pos hc, if_pos hc, if_neg hd, if_neg hd,
              ih f' (d :: rest) (by simp; omega) (by simp; omega)]
        · rw [if_neg hc, if_neg hc, ih f' (d :: rest) (by simp; omega) (by simp; omega)]

theorem subWs_nil : subWs [] = [] := rfl

theorem subWs_single (c : Char) : subWs [c] = [c] := rfl

theorem subWs_cons2 (c d : Char) (rest : List Char) :
    subWs (c :: d :: rest) =
      if isPySpace c then
        if isPySpace d then ' ' :: subWs (rest.dropWhile isPySpace)
        else c :: subWs (d :: rest)
      else c :: subWs (d :: rest) := by
  have hdw := (List.dropWhile_sublist (l := rest) isPySpace).length_le
  have hlen : (d :: rest).length = rest.length + 1 := by simp
  show (if isPySpace c then
      if isPySpace d then ' ' :: subWsF (rest.length + 1) (rest.dropWhile isPySpace)
      else c :: subWsF (rest.length + 1) (d :: rest)
    else c :: subWsF (rest.length + 1) (d :: rest)) = _
  by_cases hc : isPySpace c
  · by_cases hd : isPySpace d
    · rw [if_pos hc, if_pos hc, if_pos hd, if_pos hd]
      rw [subWsF_fuel (rest.length + 1) (rest.dropWhile isPySpace).length
        (rest.dropWhile isPySpace) (by omega) (by omega)]
      rfl
    · rw [if_pos hc, if_pos hc, if_neg hd, if_neg hd]
      rw [show subWs (d :: rest) = subWsF (rest.length + 1) (d :: rest) from by
        rw [subWs, hlen]]
  · rw [if_neg hc, if_neg hc]
    rw [show subWs (d :: rest) = subWsF (rest.length + 1) (d :: rest) from by
      rw [subWs, hlen]]

example : _clean_details "MAGNUM\nCASH,\nMCC:  5411" = "MAGNUM CASH, MCC: 5411" := by
  with_unfolding_all decide

example : _clean_details "  a\n\nb  " = "a b" := by with_unfolding_all decide

theorem tblGet_addTo (tbl : AggTable) (k k' : String × String) (v : ℚ) :
    tblGet (addTo tbl k v) k' = tblGet tbl k' + if k' = k then v else 0 := by
  induction tbl with
  | nil =>
    simp only [addTo, tblGet]
    by_cases h : k = k'
    · subst h; simp
    · rw [if_neg h, if_neg (fun hh => h hh.symm)]; simp
  | cons hd tl ih =>
    obtain ⟨k₀, v₀⟩ := hd
    by_cases h : k₀ = k
    · subst h
      simp only [addTo, if_pos rfl, tblGet]
      by_cases h' : k₀ = k'
      · subst h'
        simp [add_assoc, add_comm v]
      · rw [if_neg h', if_neg h', if_neg (fun hh => h' hh.symm), add_zero]
    · simp only [addTo, if_neg h, tblGet]
      by_cases h' : k₀ = k'
      · subst h'
        rw [if_pos rfl, if_pos rfl, if_neg h, add_zero]
      · rw [if_neg h', if_neg h', ih]

theorem tblSum_addTo (tbl : AggTable) (k : String × String) (v : ℚ) :
    tblSum (addTo tbl k v) = tblSum tbl + v := by
  induction tbl with
  | nil => simp [addTo, tblSum]
  | cons hd tl ih =>
    obtain ⟨k₀, v₀⟩ := hd
    by_cases h : k₀ = k <;> simp [addTo, tblSum, h] at ih ⊢ <;> [ring; (rw [ih]; ring)]

theorem tblGet_groupStep (acc : AggTable) (t : Txn) (k : String × String) :
    tblGet (groupStep acc t) k = tblGet acc k + contribToKey t k := by
  by_cases h : t.Description = "Purchase with bonuses"
  · simp only [groupStep, contribToKey, if_pos h, tblGet_addTo, add_assoc]
  · simp only [groupStep, contribToKey, if_neg h, tblGet_addTo]

theorem tblGet_foldl_groupStep (data : List Txn) (acc : AggTable) (k : String × String) :
    tblGet (data.foldl groupStep acc) k = tblGet acc k + (data.map (contribToKey · k)).sum := by
  induction data generalizing acc with
  | nil => simp
  | cons t rest ih =>
    simp only [List.foldl_cons, List.map_cons, List.sum_cons, ih, tblGet_groupStep, add_assoc]

theorem tblSum_groupStep (acc : AggTable) (t : Txn) :
    tblSum (groupStep acc t) = tblSum acc + massContrib t := by
  by_cases h : t.Description = "Purchase with bonuses"
  · simp only [groupStep, massContrib, if_pos h, tblSum_addTo, add_assoc]
  · simp only [groupStep, massContrib, if_neg h, tblSum_addTo]

theorem tblSum_foldl_groupStep (data : List Txn) (acc : AggTable) :
    tblSum (data.foldl groupStep acc) = tblSum acc + (data.map massContrib).sum := by
  induction data generalizing acc with
  | nil => simp
  | cons t rest ih =>
    simp only [List.foldl_cons, List.map_cons, List.sum_cons, ih, tblSum_groupStep, add_assoc]

theorem foldl_totalsStep (data : List Txn) (acc : ℚ × ℚ × ℚ × ℚ) :
    data.foldl totalsStep acc =
      (acc.1 +
          sumWhere data (fun t =>
            t.Description = "Purchase" ∨ t.Description = "Purchase with bonuses"),
        acc.2.1 + sumWhere data (fun t => t.Description = "Purchase with bonuses"),
        acc.2.2.1 + (data.map (·.Sum)).sum,
        acc.2.2.2 + sumWhere data (fun t => t.Sum > 0)) := by
  induction data generalizing acc with
  | nil => simp [sumWhere]
  | cons t rest ih =>
    simp only [List.foldl_cons, ih, sumWhere, List.filter_cons, List.map_cons, List.sum_cons]
    by_cases hb : t.Description = "Purchase with bonuses"
    · by_cases hi : t.Sum > 0 <;>
        simp [totalsStep, hb, hi, sumWhere] <;> and_intros <;> ring
    · by_cases hp : t.Description = "Purchase" <;> by_cases hi : t.Sum > 0 <;>
        simp [totalsStep, hb, hp, hi, sumWhere] <;> and_intros <;> ring

theorem massContrib_sum (data : List Txn) :
    (data.map massContrib).sum =
      (data.map (·.Sum)).sum +
        sumWhere data (fun t => t.Description = "Purchase with bonuses") := by
  induction data with
  | nil => simp [sumWhere]
  | cons t rest ih =>
    by_cases hb : t.Description = "Purchase with bonuses" <;>
      simp [massContrib, hb, sumWhere, List.filter_cons] at ih ⊢ <;> rw [ih] <;> ring

/-- Claim C1: `group_by_description_and_mcc` posts a `"Purchase with
bonuses"` amount at both `("Purchase", name)` and
`("Saved with bonuses", name)` and every other amount only at
`(kind, name)`; on the single `-1500.00` bonus row with an unmapped code the
table has exactly the entries `("Purchase", "Unknown/No MCC") = -1500` and
`("Saved with bonuses", "Unknown/No MCC") = -1500`, and
`compute_purchase_totals` gives purchase −1500, bonuses −1500, net 0. -/
theorem claim_C1 :
    (∀ (data : List Txn) (k : String × String),
        tblGet (group_by_description_and_mcc data) k = (data.map (contribToKey · k)).sum) ∧
    group_by_description_and_mcc [exTxnBonus] =
      [(("Purchase", "Unknown/No MCC"), -1500),
       (("Saved with bonuses", "Unknown/No MCC"), -1500)] ∧
    compute_purchase_totals [exTxnBonus] =
      { purchase_total := -1500, bonuses_total := -1500, net_purchases := 0,
        grand_total := -1500, income_total := 0 } := by
  refine ⟨fun data k => ?_, by decide, ?_⟩
  · rw [group_by_description_and_mcc, tblGet_foldl_groupStep]
    simp [tblGet]
  · rw [compute_purchase_totals, foldl_totalsStep]
    have h1 : sumWhere [exTxnBonus] (fun t =>
        t.Description = "Purchase" ∨ t.Description = "Purchase with bonuses") = -1500 := by
      simp [sumWhere, exTxnBonus]
    have h2 : sumWhere [exTxnBonus] (fun t => t.Description = "Purchase with bonuses") =
        -1500 := by simp [sumWhere, exTxnBonus]
    have h3 : sumWhere [exTxnBonus] (fun t => t.Sum > 0) = 0 := by
      simp [sumWhere, exTxnBonus]
    have h4 : (([exTxnBonus]).map (·.Sum)).sum = (-1500 : ℚ) := by simp [exTxnBonus]
    simp only [zero_add, Totals.mk.injEq]
    exact ⟨h1, h2, by rw [h1, h2]; norm_num, h4, h3⟩

/-- The closed form of `compute_purchase_totals` (shared helper). -/
theorem compute_purchase_totals_spec (data : List Txn) :
    compute_purchase_totals data =
      { purchase_total := sumWhere data (fun t =>
          t.Description = "Purchase" ∨ t.Description = "Purchase with bonuses")
        bonuses_total := sumWhere data (fun t => t.Description = "Purchase with bonuses")
        net_purchases := sumWhere data (fun t =>
            t.Description = "Purchase" ∨ t.Description = "Purchase with bonuses") -
          sumWhere data (fun t => t.Description = "Purchase with bonuses")
        grand_total := (data.map (·.Sum)).sum
        income_total := sumWhere data (fun t => t.Sum > 0) } := by
  rw [compute_purchase_totals, foldl_totalsStep]
  simp

/-- Claim C2: `compute_purchase_totals` returns the grand total of all
amounts, the income total of the strictly positive amounts, the purchase
total over kinds `"Purchase"` and `"Purchase with bonuses"`, the bonuses
total over kind `"Purchase with bonuses"` only, and net = purchase − bonuses. -/
theorem claim_C2 (data : List Txn) :
    compute_purchase_totals data =
      { purchase_total := sumWhere data (fun t =>
          t.Description = "Purchase" ∨ t.Description = "Purchase with bonuses")
        bonuses_total := sumWhere data (fun t => t.Description = "Purchase with bonuses")
        net_purchases := sumWhere data (fun t =>
            t.Description = "Purchase" ∨ t.Description = "Purchase with bonuses") -
          sumWhere data (fun t => t.Description = "Purchase with bonuses")
        grand_total := (data.map (·.Sum)).sum
        income_total := sumWhere data (fun t => t.Sum > 0) } :=
  compute_purchase_totals_spec data

/-- Claim C3: the total mass of the aggregation table equals
`grand_total + bonuses_total`: the fold preserves the amount sum except that
the intentional double posting of `"Purchase with bonuses"` rows adds the
bonus amount sum once more. -/
theorem claim_C3 (data : List Txn) :
    tblSum (group_by_description_and_mcc data) =
      (compute_purchase_totals data).grand_total +
        (compute_purchase_totals data).bonuses_total := by
  rw [group_by_description_and_mcc, tblSum_foldl_groupStep, compute_purchase_totals,
    foldl_totalsStep]
  simp [massContrib_sum, tblSum]

theorem mccSearch_eq_first_match (l : List Char) :
    mccSearch l = l.tails.findSome? tryMccBoth := by
  induction l with
  | nil => rfl
  | cons c rest ih =>
    cases h1 : tryMccAt mccLabelLat (c :: rest)
    · cases h2 : tryMccAt mccLabelCyr (c :: rest) <;>
        simp [mccSearch, tryMccBoth, h1, h2, List.tails_cons, List.findSome?_cons, ih]
    · simp [mccSearch, tryMccBoth, h1, List.tails_cons, List.findSome?_cons, ih]

/-- Claim C4: the MCC code is the first match, scanning positions left to
right, of a case-insensitive `MCC:`/`МСС:` label followed by whitespace and
four digits; the wallet token sets `payment_method` iff `"APPLE PAY"` occurs
in the uppercased text; the bank comes from the first pair of the fixed
ordered keyword list (Halyk Bank with its two variants first) with a keyword
substring; and the given example parses to mcc `"5411"`, bank
`"Halyk Bank"`, payment method set, merchant `"MAGNUM CASH&CARRY"`. -/
theorem claim_C4 :
    (∀ s : String,
        (parse_details s).mcc = (s.data.tails.findSome? tryMccBoth).map (⟨·⟩)) ∧
    (∀ s : String,
        (parse_details s).payment_method ≠ none ↔
          isSubstr "APPLE PAY".data (s.data.map Char.toUpper) = true) ∧
    bank_keywords.head? = some ("Halyk Bank", ["JSC Halyk Bank", "Halyk Bank"]) ∧
    (∀ s : String,
        (parse_details s).bank =
          (bank_keywords.find? (fun p => p.2.any (fun kw => isSubstr kw.data s.data))).map
            (·.1)) ∧
    parse_details "MAGNUM CASH&CARRY, JSC Halyk Bank, MCC: 5411, APPLE PAY" =
      { raw := "MAGNUM CASH&CARRY, JSC Halyk Bank, MCC: 5411, APPLE PAY"
        merchant := some "MAGNUM CASH&CARRY"
        bank := some "Halyk Bank"
        mcc := some "5411"
        payment_method := some "APPLE PAY"
        receiver_account := none } := by
  refine ⟨fun s => ?_, fun s => ?_, rfl, fun s => rfl, by decide⟩
  · rw [parse_details, mccSearch_eq_first_match]
  · rw [parse_details]
    by_cases h : isSubstr "APPLE PAY".data (s.data.map Char.toUpper) = true <;> simp [h]

/-- Claim C5: `parse_details` never reports both a receiver account and a
merchant: the merchant guess (text before the first comma, stripped) is made
only when the `Receiver:` pattern did not match and a comma is present; the
`"Receiver: 440043******8791"` example yields that receiver account and no
merchant. -/
theorem claim_C5 :
    (∀ s : String,
        (parse_details s).receiver_account ≠ none → (parse_details s).merchant = none) ∧
    (∀ s : String,
        (parse_details s).merchant ≠ none →
          recvSearch s.data = none ∧ ',' ∈ s.data ∧
            (parse_details s).merchant = some ⟨pstrip (s.data.takeWhile (· ≠ ','))⟩) ∧
    (parse_details "Receiver: 440043******8791").receiver_account =
      some "440043******8791" ∧
    (parse_details "Receiver: 440043******8791").merchant = none := by
  refine ⟨fun s h => ?_, fun s h => ?_, by decide, by decide⟩
  · rw [parse_details] at h ⊢
    cases hr : recvSearch s.data <;> simp [hr] at h ⊢
  · rw [parse_details] at h ⊢
    cases hr : recvSearch s.data <;> simp [hr] at h ⊢
    by_cases hc : ',' ∈ s.data <;> simp [hc] at h ⊢

theorem claim_C5_witness :
    ((parse_details "Receiver: 12").merchant = none) ∧
      (recvSearch "a, b".data = none ∧ ',' ∈ "a, b".data ∧
        (parse_details "a, b").merchant = some ⟨pstrip ("a, b".data.takeWhile (· ≠ ','))⟩) :=
  ⟨claim_C5.1 "Receiver: 12" (by decide), claim_C5.2.1 "a, b" (by decide)⟩

/-- Claim C7: `parse_sum` keeps only digits, dots and minus signs, parses
the remainder as a signed decimal, and yields 0 instead of raising when the
remainder is not a valid number; `parse_sum "-30000.00 KZT" = -30000` and
`parse_sum "garbage" = 0`. -/
theorem claim_C7 :
    parse_sum "-30000.00 KZT" = -30000 ∧
    parse_sum "garbage" = 0 ∧
    (∀ (s : String) (c : Char), c ∈ s.data.filter isNumChar → c.isDigit ∨ c = '.' ∨ c = '-') ∧
    (∀ s : String, pyFloatOfClean (s.data.filter isNumChar) = none → parse_sum s = 0) ∧
    (∀ (s : String) (q : ℚ), pyFloatOfClean (s.data.filter isNumChar) = some q →
      parse_sum s = q) := by
  refine ⟨?_, by decide, fun s c hc => ?_, fun s h => ?_, fun s q h => ?_⟩
  · have h : "-30000.00 KZT".data.filter isNumChar = '-' :: "30000.00".data := by decide
    have h2 : pyFloatParts "30000.00".data = some (30000, 0, 2) := by decide
    rw [parse_sum, h, pyFloatOfClean, if_pos (by decide)]
    simp only [List.tail_cons, h2, Option.map_some']
    norm_num
  · have := List.of_mem_filter hc
    simp [isNumChar] at this
    tauto
  · rw [parse_sum, h]
  · rw [parse_sum, h]

theorem claim_C7_witness :
    parse_sum "garbage" = 0 ∧ parse_sum "7" = (7 : ℕ) + ((0 : ℕ) : ℚ) / 10 ^ 0 :=
  ⟨claim_C7.2.2.2.1 "garbage" (by decide),
   claim_C7.2.2.2.2 "7" ((7 : ℕ) + ((0 : ℕ) : ℚ) / 10 ^ 0) rfl⟩

/-- Claim C8: `_is_data_row` rejects rows with fewer than four cells or an
empty or missing date or amount cell, and accepts exactly the rows whose
stripped date cell matches the strict `DD.MM.YYYY` pattern and whose
stripped amount cell matches `-?[\d,.]+\s+KZT`; in particular it rejects the
literal header row. -/
theorem claim_C8 :
    (∀ row : List (Option String), row.length < 4 → _is_data_row row = false) ∧
    (∀ row : List (Option String),
        _is_data_row row = true ↔
          ∃ (d s : String) (c2 c3 : Option String) (rest : List (Option String)),
            row = some d :: some s :: c2 :: c3 :: rest ∧ d ≠ "" ∧ s ≠ "" ∧
              dateMatch (pstrip d.data) = true ∧ sumMatch (pstrip s.data) = true) ∧
    _is_data_row [some "Date", some "Sum", some "Description", some "Details"] = false := by
  refine ⟨fun row hlen => ?_, fun row => ?_, by decide⟩
  · rcases row with _ | ⟨c0, _ | ⟨c1, _ | ⟨c2, _ | ⟨c3, rest⟩⟩⟩⟩ <;>
      simp at hlen <;> simp [_is_data_row] <;> omega
  · rcases row with _ | ⟨c0, _ | ⟨c1, _ | ⟨c2, _ | ⟨c3, rest⟩⟩⟩⟩ <;>
      [skip; skip; skip; skip; skip] <;> simp [_is_data_row]
    cases c0 <;> cases c1 <;> simp [_is_data_row]
    rename_i d s
    by_cases hd : d = "" <;> by_cases hs : s = "" <;> simp [hd, hs] <;> aesop

theorem claim_C8_witness :
    _is_data_row [] = false ∧
      _is_data_row [some "31.13.2026", some "5.00 KZT", some "x", some "y"] = true :=
  ⟨claim_C8.1 [] (by decide),
   (claim_C8.2.1 [some "31.13.2026", some "5.00 KZT", some "x", some "y"]).2
     ⟨"31.13.2026", "5.00 KZT", some "x", some "y", [], rfl, by decide, by decide, by decide,
       by decide⟩⟩

theorem subNl_head_nl (p : Option Char) (l t : List Char) (h : subNl p l = '\n' :: t) :
    p = some ',' ∨ p = some '.' := by
  cases l with
  | nil => simp [subNl] at h
  | cons c rest =>
    simp only [subNl, List.cons.injEq] at h
    by_cases hc : c = '\n' ∧ p ≠ some ',' ∧ p ≠ some '.'
    · rw [if_pos hc] at h
      exact absurd h.1 (by decide)
    · rw [if_neg hc] at h
      obtain ⟨h1, -⟩ := h
      subst h1
      have : ¬(p ≠ some ',' ∧ p ≠ some '.') := fun hh => hc ⟨rfl, hh⟩
      tauto

theorem chain'_NlR_subNl (l : List Char) (p : Option Char) :
    List.Chain' NlR (subNl p l) := by
  induction l generalizing p with
  | nil => simp [subNl]
  | cons c rest ih =>
    simp only [subNl]
    rw [List.chain'_cons']
    refine ⟨fun y hy hynl => ?_, ih (some c)⟩
    subst hynl
    obtain ⟨t, ht⟩ : ∃ t, subNl (some c) rest = '\n' :: t := by
      cases hh : subNl (some c) rest with
      | nil => simp [hh] at hy
      | cons a t =>
        simp [hh] at hy
        exact ⟨t, by rw [hy]⟩
    have hmem := subNl_head_nl (some c) rest t ht
    have hc : c = ',' ∨ c = '.' := by
      rcases hmem with h | h <;> [left; right] <;> injection h
    have hcond : ¬(c = '\n' ∧ p ≠ some ',' ∧ p ≠ some '.') := by
      rcases hc with h | h <;> simp [h]
    rw [if_neg hcond]
    exact hc

theorem noNl_subPunctNl :
    ∀ l : List Char, List.Chain' NlR l → l.head? ≠ some '\n' → '\n' ∉ subPunctNl l := by
  intro l
  induction l using subPunctNl.induct with
  | case1 => intro _ _; simp [subPunctNl]
  | case2 c =>
    intro _ hhd
    simp only [subPunctNl, List.mem_singleton, List.head?_cons] at hhd ⊢
    exact fun h => hhd (by rw [h])
  | case3 c d rest hcond ih =>
    intro hch hhd
    rw [List.chain'_cons'] at hch
    obtain ⟨-, hch2⟩ := hch
    rw [List.chain'_cons'] at hch2
    obtain ⟨hdr, hchr⟩ := hch2
    have hrest_hd : rest.head? ≠ some '\n' := by
      intro hh
      cases hr : rest with
      | nil => rw [hr] at hh; simp at hh
      | cons a t =>
        rw [hr] at hh
        simp only [List.head?_cons, Option.some.injEq] at hh
        have hna := hdr a (by rw [hr]; rfl)
        subst hh
        rcases hna rfl with h | h <;> rw [hcond.2] at h <;> exact absurd h (by decide)
    simp only [subPunctNl, if_pos hcond, List.mem_cons]
    push_neg
    refine ⟨?_, by decide, ih hchr hrest_hd⟩
    intro hh
    rcases hcond.1 with h | h <;> rw [← hh] at h <;> exact absurd h (by decide)
  | case4 c d rest hcond ih =>
    intro hch hhd
    rw [List.chain'_cons'] at hch
    obtain ⟨hcd, hch2⟩ := hch
    have hd_ne : d ≠ '\n' := by
      intro hh
      have := hcd d rfl hh
      exact hcond ⟨this, hh⟩
    simp only [subPunctNl, if_neg hcond, List.mem_cons]
    push_neg
    refine ⟨?_, ih hch2 ?_⟩
    · intro hh
      rw [← hh] at hhd
      simp at hhd
    · simpa using hd_ne

theorem subNl_eq_self (p : Option Char) (l : List Char) (h : '\n' ∉ l) : subNl p l = l := by
  induction l generalizing p with
  | nil => rfl
  | cons c rest ih =>
    simp only [List.mem_cons] at h
    push_neg at h
    have hc : ¬(c = '\n' ∧ p ≠ some ',' ∧ p ≠ some '.') := fun hh => h.1 hh.1.symm
    simp only [subNl, if_neg hc]
    exact congrArg (List.cons c) (ih (some c) h.2)

theorem subPunctNl_eq_self : ∀ l : List Char, '\n' ∉ l → subPunctNl l = l := by
  intro l
  induction l using subPunctNl.induct with
  | case1 => intro _; rfl
  | case2 c => intro _; rfl
  | case3 c d rest hcond ih =>
    intro h
    exact absurd (by rw [hcond.2]; simp) (fun hh : '\n' ∈ d :: rest => h (List.mem_cons_of_mem c hh))
  | case4 c d rest hcond ih =>
    intro h
    simp only [List.mem_cons] at h
    push_neg at h
    simp only [subPunctNl, if_neg hcond]
    exact congrArg (List.cons c) (ih (by simp [List.mem_cons]; tauto))

theorem dropWhile_head_false (p : Char → Bool) (l : List Char) (a : Char) (t : List Char)
    (h : l.dropWhile p = a :: t) : p a = false := by
  induction l with
  | nil => simp at h
  | cons x xs ih =>
    rw [List.dropWhile_cons] at h
    by_cases hx : p x = true
    · rw [if_pos hx] at h; exact ih h
    · rw [if_neg hx] at h
      obtain ⟨h1, -⟩ := List.cons.inj h
      subst h1
      simp at hx
      exact hx

theorem mem_subWs (l : List Char) : ∀ x ∈ subWs l, x ∈ l ∨ x = ' ' := by
  match l with
  | [] => intro x hx; rw [subWs_nil] at hx; simp at hx
  | [c] => intro x hx; rw [subWs_single] at hx; simp at hx; simp [hx]
  | c :: d :: rest =>
    intro x hx
    rw [subWs_cons2] at hx
    by_cases hc : isPySpace c
    · by_cases hd : isPySpace d
      · rw [if_pos hc, if_pos hd] at hx
        rcases List.mem_cons.1 hx with h | h
        · right; exact h
        · rcases mem_subWs (rest.dropWhile isPySpace) x h with h2 | h2
          · left
            have := (List.dropWhile_sublist (l := rest) isPySpace).subset h2
            simp [this]
          · right; exact h2
      · rw [if_pos hc, if_neg hd] at hx
        rcases List.mem_cons.1 hx with h | h
        · left; simp [h]
        · rcases mem_subWs (d :: rest) x h with h2 | h2
          · left; simp only [List.mem_cons] at h2 ⊢; tauto
          · right; exact h2
    · rw [if_neg hc] at hx
      rcases List.mem_cons.1 hx with h | h
      · left; simp [h]
      · rcases mem_subWs (d :: rest) x h with h2 | h2
        · left; simp only [List.mem_cons] at h2 ⊢; tauto
        · right; exact h2
termination_by l.length
decreasing_by
  · simp only [List.length_cons]
    have := (List.dropWhile_sublist (l := rest) isPySpace).length_le
    omega
  · simp
  · simp

theorem subWs_head_space (m : List Char) (a : Char) (t : List Char) (h : subWs m = a :: t)
    (ha : isPySpace a = true) : ∃ b, m.head? = some b ∧ isPySpace b = true := by
  match m with
  | [] => rw [subWs_nil] at h; simp at h
  | [c] =>
    rw [subWs_single] at h
    obtain ⟨h1, -⟩ := List.cons.inj h
    exact ⟨c, rfl, by rw [h1]; exact ha⟩
  | c :: d :: rest =>
    by_cases hc : isPySpace c = true
    · exact ⟨c, rfl, hc⟩
    · rw [subWs_cons2, if_neg hc] at h
      obtain ⟨h1, -⟩ := List.cons.inj h
      exact ⟨c, rfl, by rw [h1]; exact ha⟩

theorem chain'_noAdjR_subWs (l : List Char) : List.Chain' noAdjR (subWs l) := by
  match l with
  | [] => rw [subWs_nil]; simp
  | [c] => rw [subWs_single]; simp
  | c :: d :: rest =>
    rw [subWs_cons2]
    by_cases hc : isPySpace c
    · by_cases hd : isPySpace d
      · rw [if_pos hc, if_pos hd, List.chain'_cons']
        refine ⟨fun y hy => ?_, chain'_noAdjR_subWs (rest.dropWhile isPySpace)⟩
        intro hcontra
        obtain ⟨-, hy2⟩ := hcontra
        cases hs : subWs (rest.dropWhile isPySpace) with
        | nil => rw [hs] at hy; simp at hy
        | cons a t =>
          rw [hs] at hy
          simp only [List.head?_cons, Option.mem_def, Option.some.injEq] at hy
          subst hy
          obtain ⟨b, hb, hbs⟩ := subWs_head_space _ _ _ hs hy2
          cases hr : rest.dropWhile isPySpace with
          | nil => rw [hr] at hb; simp at hb
          | cons b' t' =>
            rw [hr] at hb
            simp only [List.head?_cons, Option.mem_def, Option.some.injEq] at hb
            subst hb
            have hfalse := dropWhile_head_false isPySpace rest b' t' hr
            rw [hfalse] at hbs
            exact absurd hbs (by decide)
      · rw [if_pos hc, if_neg hd, List.chain'_cons']
        refine ⟨fun y hy => ?_, chain'_noAdjR_subWs (d :: rest)⟩
        intro hcontra
        obtain ⟨-, hy2⟩ := hcontra
        cases hs : subWs (d :: rest) with
        | nil => rw [hs] at hy; simp at hy
        | cons a t =>
          rw [hs] at hy
          simp only [List.head?_cons, Option.mem_def, Option.some.injEq] at hy
          subst hy
          obtain ⟨b, hb, hbs⟩ := subWs_head_space _ _ _ hs hy2
          simp only [List.head?_cons, Option.mem_def, Option.some.injEq] at hb
          subst hb
          exact hd hbs
    · rw [if_neg hc, List.chain'_cons']
      exact ⟨fun y _ hcontra => hc hcontra.1, chain'_noAdjR_subWs (d :: rest)⟩
termination_by l.length
decreasing_by
  · simp only [List.length_cons]
    have := (List.dropWhile_sublist (l := rest) isPySpace).length_le
    omega
  · simp
  · simp

theorem subWs_eq_self (l : List Char) (hch : List.Chain' noAdjR l) : subWs l = l := by
  match l with
  | [] => exact subWs_nil
  | [c] => exact subWs_single c
  | c :: d :: rest =>
    by_cases hc : isPySpace c
    · by_cases hd : isPySpace d
      · rw [List.chain'_cons'] at hch
        exact absurd ⟨hc, hd⟩ (hch.1 d rfl)
      · rw [subWs_cons2, if_pos hc, if_neg hd]
        exact congrArg (List.cons c) (subWs_eq_self (d :: rest) hch.tail)
    · rw [subWs_cons2, if_neg hc]
      exact congrArg (List.cons c) (subWs_eq_self (d :: rest) hch.tail)
termination_by l.length
decreasing_by
  · simp
  · simp

theorem dropWhile_idem (p : Char → Bool) (l : List Char) :
    (l.dropWhile p).dropWhile p = l.dropWhile p := by
  cases h : l.dropWhile p with
  | nil => rfl
  | cons a t =>
    rw [List.dropWhile_cons, if_neg]
    rw [dropWhile_head_false p l a t h]
    simp

theorem rstrip_append (l : List Char) : ∃ u, rstrip l ++ u = l := by
  obtain ⟨v, hv⟩ := List.dropWhile_suffix (l := l.reverse) isPySpace
  refine ⟨v.reverse, ?_⟩
  rw [rstrip, ← List.reverse_append, hv, List.reverse_reverse]

theorem rstrip_idem (l : List Char) : rstrip (rstrip l) = rstrip l := by
  rw [rstrip, rstrip, List.reverse_reverse, dropWhile_idem]

theorem mem_rstrip (l : List Char) (x : Char) (h : x ∈ rstrip l) : x ∈ l := by
  rw [rstrip, List.mem_reverse] at h
  have := (List.dropWhile_sublist (l := l.reverse) isPySpace).subset h
  simpa using this

theorem mem_pstrip (l : List Char) (x : Char) (h : x ∈ pstrip l) : x ∈ l := by
  rw [pstrip] at h
  have h2 := mem_rstrip _ _ h
  rw [lstrip] at h2
  exact (List.dropWhile_sublist (l := l) isPySpace).subset h2

theorem noAdjR_flip (a b : Char) (h : noAdjR a b) : noAdjR b a := fun hh => h ⟨hh.2, hh.1⟩

theorem chain'_dropWhile (p : Char → Bool) (l : List Char)
    (h : List.Chain' noAdjR l) : List.Chain' noAdjR (l.dropWhile p) := by
  induction l with
  | nil => simp
  | cons a t ih =>
    rw [List.dropWhile_cons]
    by_cases ha : p a = true
    · rw [if_pos ha]
      exact ih h.tail
    · rw [if_neg ha]
      exact h

theorem chain'_reverse_noAdjR (l : List Char) (h : List.Chain' noAdjR l) :
    List.Chain' noAdjR l.reverse := by
  rw [List.chain'_reverse]
  exact h.imp (fun a b hab => noAdjR_flip a b hab)

theorem chain'_rstrip (l : List Char) (h : List.Chain' noAdjR l) :
    List.Chain' noAdjR (rstrip l) := by
  rw [rstrip]
  exact chain'_reverse_noAdjR _ (chain'_dropWhile _ _ (chain'_reverse_noAdjR _ h))

theorem chain'_pstrip (l : List Char) (h : List.Chain' noAdjR l) :
    List.Chain' noAdjR (pstrip l) := by
  rw [pstrip, lstrip]
  exact chain'_rstrip _ (chain'_dropWhile _ _ h)

theorem lstrip_of_head_false (l : List Char)
    (h : ∀ a t, l = a :: t → isPySpace a = false) : lstrip l = l := by
  cases l with
  | nil => rfl
  | cons a t =>
    rw [lstrip, List.dropWhile_cons, if_neg]
    rw [h a t rfl]
    simp

theorem pstrip_idem (l : List Char) : pstrip (pstrip l) = pstrip l := by
  rw [pstrip, pstrip]
  have h1 : lstrip (rstrip (lstrip l)) = rstrip (lstrip l) := by
    apply lstrip_of_head_false
    intro a t hat
    obtain ⟨u, hu⟩ := rstrip_append (lstrip l)
    rw [hat] at hu
    cases hl : lstrip l with
    | nil => rw [hl] at hu; simp at hu
    | cons b s =>
      rw [hl] at hu
      have hb : a = b := by
        have := congrArg List.head? hu
        simpa using this
      subst hb
      exact dropWhile_head_false isPySpace l a s hl
  rw [h1, rstrip_idem]

theorem cleanDetailsL_idem (l : List Char) :
    cleanDetailsL (cleanDetailsL l) = cleanDetailsL l := by
  by_cases hx : cleanDetailsL l = []
  · rw [cleanDetailsL]
    rw [if_pos hx, hx]
  · rw [cleanDetailsL, if_neg hx]
    by_cases h0 : l = []
    · exact absurd (by rw [h0]; rfl) hx
    · rw [cleanDetailsL, if_neg h0]
      have hnl : '\n' ∉ pstrip (subWs (subPunctNl (subNl none l))) := by
        intro hmem
        have h1 := mem_pstrip _ _ hmem
        rcases mem_subWs _ _ h1 with h2 | h2
        · have hhead : (subNl none l).head? ≠ some '\n' := by
            intro hh
            cases hs : subNl none l with
            | nil => rw [hs] at hh; simp at hh
            | cons a t =>
              rw [hs] at hh
              simp only [List.head?_cons, Option.some.injEq] at hh
              subst hh
              rcases subNl_head_nl none l t hs with h | h <;> simp at h
          exact noNl_subPunctNl (subNl none l) (chain'_NlR_subNl l none) hhead h2
        · exact absurd h2 (by decide)
      have hch : List.Chain' noAdjR (pstrip (subWs (subPunctNl (subNl none l)))) :=
        chain'_pstrip _ (chain'_noAdjR_subWs _)
      rw [subNl_eq_self none _ hnl, subPunctNl_eq_self _ hnl, subWs_eq_self _ hch, pstrip_idem]

/-- Claim C6: `_clean_details` is idempotent. -/
theorem claim_C6 (s : String) : _clean_details (_clean_details s) = _clean_details s := by
  rw [_clean_details, _clean_details]
  exact congrArg String.mk (cleanDetailsL_idem s.data)

/-- Claim C9, counterexample: with an unrecognized sort key the outputs are
not equal to the `sum`-key outputs (the title echoes the key verbatim), and
with an unrecognized style the output is the plain style, not the boxed
`ascii` style. -/
theorem claim_C9_counterexample :
    ¬(format_aggregated [] "T" "zzz" FMT_SIMPLE =
        format_aggregated [] "T" SORT_BY_SUM FMT_SIMPLE) ∧
    ¬(format_raw_report [] SORT_BY_SUM "zzz" = format_raw_report [] SORT_BY_SUM FMT_ASCII) := by
  constructor <;> with_unfolding_all decide

/-- Claim C9 as amended: the formatting operations never fail on
unrecognized options, but the fallbacks are: any sort key other than `name`
sorts `format_aggregated` exactly as the `sum` key does (only the echoed key
name in the title differs); an unrecognized sort key leaves
`format_raw_report` in input order; and an unrecognized style renders the
`simple` (plain) style in both reports. -/
theorem claim_C9_amended :
    (∀ (agg : AggTable) (k : String), k ≠ SORT_BY_NAME →
        sorted_items agg k = sorted_items agg SORT_BY_SUM) ∧
    (∀ (agg : AggTable) (title k f : String), f ≠ FMT_ASCII →
        format_aggregated agg title k f = format_aggregated agg title k FMT_SIMPLE) ∧
    (∀ (d : List Txn) (k : String), k ≠ SORT_BY_DATE → k ≠ SORT_BY_SUM → k ≠ SORT_BY_NAME →
        raw_sorted d k = d) ∧
    (∀ (d : List Txn) (k f : String), f ≠ FMT_ASCII →
        format_raw_report d k f = format_raw_report d k FMT_SIMPLE) := by
  refine ⟨fun agg k hk => ?_, fun agg title k f hf => ?_, fun d k h1 h2 h3 => ?_,
    fun d k f hf => ?_⟩
  · have hle : itemLe k = itemLe SORT_BY_SUM := by
      funext a b
      rw [itemLe, itemLe, if_neg hk, if_neg (by decide)]
    rw [sorted_items, sorted_items, hle]
  · rw [format_aggregated, format_aggregated, if_neg hf, if_neg (by decide)]
  · rw [raw_sorted, if_neg h1, if_neg h2, if_neg h3]
  · rw [format_raw_report, format_raw_report, if_neg hf, if_neg (by decide)]

theorem claim_C9_witness :
    sorted_items [] "zzz" = sorted_items [] SORT_BY_SUM ∧
      format_aggregated [] "T" "zzz" "w" = format_aggregated [] "T" "zzz" FMT_SIMPLE ∧
      raw_sorted [] "zzz" = [] ∧
      format_raw_report [] "zzz" "w" = format_raw_report [] "zzz" FMT_SIMPLE :=
  ⟨claim_C9_amended.1 [] "zzz" (by decide),
   claim_C9_amended.2.1 [] "T" "zzz" "w" (by decide),
   claim_C9_amended.2.2.1 [] "zzz" (by decide) (by decide) (by decide),
   claim_C9_amended.2.2.2 [] "zzz" "w" (by decide)⟩

theorem aggDescSum_addTo (d : String) (tbl : AggTable) (k : String × String) (v : ℚ) :
    aggDescSum d (addTo tbl k v) = aggDescSum d tbl + if k.1 = d then v else 0 := by
  induction tbl with
  | nil =>
    by_cases h : k.1 = d <;> simp [addTo, aggDescSum, h]
  | cons hd tl ih =>
    obtain ⟨k₀, v₀⟩ := hd
    by_cases h : k₀ = k
    · subst h
      by_cases h' : k₀.1 = d <;> simp [addTo, aggDescSum, h'] <;> ring
    · by_cases h' : k₀.1 = d <;>
        simp [addTo, aggDescSum, h, h'] at ih ⊢ <;> rw [ih] <;> ring

theorem aggDescSum_groupStep (d : String) (acc : AggTable) (t : Txn) :
    aggDescSum d (groupStep acc t) = aggDescSum d acc + descContrib d t := by
  by_cases h : t.Description = "Purchase with bonuses"
  · simp only [groupStep, descContrib, if_pos h, aggDescSum_addTo, add_assoc]
  · simp only [groupStep, descContrib, if_neg h, aggDescSum_addTo]

theorem aggDescSum_foldl_groupStep (data : List Txn) (acc : AggTable) (d : String) :
    aggDescSum d (data.foldl groupStep acc) =
      aggDescSum d acc + (data.map (descContrib d)).sum := by
  induction data generalizing acc with
  | nil => simp
  | cons t rest ih =>
    simp only [List.foldl_cons, List.map_cons, List.sum_cons, ih, aggDescSum_groupStep,
      add_assoc]

theorem descContrib_purchase_sum (data : List Txn) :
    (data.map (descContrib "Purchase")).sum =
      sumWhere data (fun t =>
        t.Description = "Purchase" ∨ t.Description = "Purchase with bonuses") := by
  induction data with
  | nil => simp [sumWhere]
  | cons t rest ih =>
    by_cases hb : t.Description = "Purchase with bonuses" <;>
      by_cases hp : t.Description = "Purchase" <;>
      simp [descContrib, hb, hp, sumWhere, List.filter_cons] at ih ⊢ <;> rw [ih] <;> ring

theorem descContrib_saved_sum (data : List Txn)
    (hns : ∀ t ∈ data, t.Description ≠ "Saved with bonuses") :
    (data.map (descContrib "Saved with bonuses")).sum =
      sumWhere data (fun t => t.Description = "Purchase with bonuses") := by
  induction data with
  | nil => simp [sumWhere]
  | cons t rest ih =>
    have hns_t : t.Description ≠ "Saved with bonuses" := hns t (by simp)
    have ih2 := ih (fun u hu => hns u (by simp [hu]))
    by_cases hb : t.Description = "Purchase with bonuses" <;>
      simp [descContrib, hb, hns_t, sumWhere, List.filter_cons] at ih2 ⊢ <;> rw [ih2] <;>
      ring

theorem sumWhere_perm (data data' : List Txn) (h : data.Perm data') (p : Txn → Prop)
    [DecidablePred p] : sumWhere data p = sumWhere data' p := by
  rw [sumWhere, sumWhere]
  exact ((h.filter (fun t => decide (p t))).map (fun t : Txn => t.Sum)).sum_eq

theorem grand_perm (data data' : List Txn) (h : data.Perm data') :
    (data.map (·.Sum)).sum = (data'.map (·.Sum)).sum :=
  (h.map (fun t : Txn => t.Sum)).sum_eq

theorem aggDescSum_perm (d : String) (tbl tbl' : AggTable) (h : tbl.Perm tbl') :
    aggDescSum d tbl = aggDescSum d tbl' := by
  rw [aggDescSum, aggDescSum]
  exact ((h.filter (fun it => decide (it.1.1 = d))).map
    (fun it : (String × String) × ℚ => it.2)).sum_eq

theorem sorted_items_perm (agg : AggTable) (k : String) : (sorted_items agg k).Perm agg :=
  List.mergeSort_perm agg (itemLe k)

theorem raw_sorted_perm (data : List Txn) (k : String) : (raw_sorted data k).Perm data := by
  rw [raw_sorted]
  by_cases h1 : k = SORT_BY_DATE
  · rw [if_pos h1]; exact List.mergeSort_perm data _
  · rw [if_neg h1]
    by_cases h2 : k = SORT_BY_SUM
    · rw [if_pos h2]; exact List.mergeSort_perm data _
    · rw [if_neg h2]
      by_cases h3 : k = SORT_BY_NAME
      · rw [if_pos h3]; exact List.mergeSort_perm data _
      · rw [if_neg h3]

/-- The first component of the `agg_fold` state (the running
(purchase, bonus) totals) over any item list. -/
theorem agg_fold_totals (items : AggTable) :
    (agg_fold items).1 = aggDescSum "Purchase" items ∧
      (agg_fold items).2.1 = aggDescSum "Saved with bonuses" items := by
  suffices h : ∀ acc : ℚ × ℚ × List (String × String × ℚ),
      (items.foldl (fun acc it =>
        if it.1.1 = "Saved with bonuses" then (acc.1, acc.2.1 + it.2, acc.2.2)
        else if it.1.1 = "Purchase" then
          (acc.1 + it.2, acc.2.1, acc.2.2 ++ [(it.1.1, it.1.2, it.2)])
        else (acc.1, acc.2.1, acc.2.2 ++ [(it.1.1, it.1.2, it.2)])) acc).1 =
          acc.1 + aggDescSum "Purchase" items ∧
      (items.foldl (fun acc it =>
        if it.1.1 = "Saved with bonuses" then (acc.1, acc.2.1 + it.2, acc.2.2)
        else if it.1.1 = "Purchase" then
          (acc.1 + it.2, acc.2.1, acc.2.2 ++ [(it.1.1, it.1.2, it.2)])
        else (acc.1, acc.2.1, acc.2.2 ++ [(it.1.1, it.1.2, it.2)])) acc).2.1 =
          acc.2.1 + aggDescSum "Saved with bonuses" items by
    have := h (0, 0, [])
    simpa [agg_fold] using this
  induction items with
  | nil => intro acc; simp [aggDescSum]
  | cons it rest ih =>
    intro acc
    by_cases hs : it.1.1 = "Saved with bonuses" <;> by_cases hp : it.1.1 = "Purchase" <;>
      simp [hs, hp, aggDescSum, List.filter_cons, ih] <;> and_intros <;> ring

/-- The totals components of `raw_fold`. -/
theorem raw_fold_totals (sd : List Txn) :
    (raw_fold sd).1 = sumWhere sd (fun t =>
        t.Description = "Purchase" ∨ t.Description = "Purchase with bonuses") ∧
      (raw_fold sd).2.1 = sumWhere sd (fun t => t.Description = "Purchase with bonuses") := by
  suffices h : ∀ acc : ℚ × ℚ × ℚ × List (String × String × String × String × ℚ),
      ((sd.foldl (fun acc row =>
        let grand := acc.2.2.1 + row.Sum
        let mk := fun (desc : String) (p b : ℚ) =>
          (p, b, grand,
            acc.2.2.2 ++ [(row.Date, desc, rowLabel row, orEmpty row.Details.mcc, row.Sum)])
        if row.Description = "Purchase with bonuses" then
          mk "Purchase" (acc.1 + row.Sum) (acc.2.1 + row.Sum)
        else if row.Description = "Purchase" then mk "Purchase" (acc.1 + row.Sum) acc.2.1
        else mk row.Description acc.1 acc.2.1) acc).1 =
          acc.1 + sumWhere sd (fun t =>
            t.Description = "Purchase" ∨ t.Description = "Purchase with bonuses")) ∧
      ((sd.foldl (fun acc row =>
        let grand := acc.2.2.1 + row.Sum
        let mk := fun (desc : String) (p b : ℚ) =>
          (p, b, grand,
            acc.2.2.2 ++ [(row.Date, desc, rowLabel row, orEmpty row.Details.mcc, row.Sum)])
        if row.Description = "Purchase with bonuses" then
          mk "Purchase" (acc.1 + row.Sum) (acc.2.1 + row.Sum)
        else if row.Description = "Purchase" then mk "Purchase" (acc.1 + row.Sum) acc.2.1
        else mk row.Description acc.1 acc.2.1) acc).2.1 =
          acc.2.1 + sumWhere sd (fun t => t.Description = "Purchase with bonuses")) by
    have := h (0, 0, 0, [])
    simpa [raw_fold] using this
  induction sd with
  | nil => intro acc; simp [sumWhere]
  | cons t rest ih =>
    intro acc
    by_cases hb : t.Description = "Purchase with bonuses" <;>
      by_cases hp : t.Description = "Purchase" <;>
      simp [hb, hp, sumWhere, List.filter_cons, ih] <;> and_intros <;> ring

/-- Claim C10, counterexample: on the one-transaction list whose kind is
literally `"Saved with bonuses"`, the sum of `"Purchase with bonuses"`
amounts is zero, yet the net figure of `format_aggregated`
(purchase + bonus totals of its display fold) is 1 while
`format_raw_report`/`compute_purchase_totals` give net 0 — the claimed
coincidence fails. -/
theorem claim_C10_counterexample :
    (compute_purchase_totals [exTxnSaved]).bonuses_total = 0 ∧
    ¬((agg_fold (sorted_items (group_by_description_and_mcc [exTxnSaved]) SORT_BY_SUM)).1 +
        (agg_fold (sorted_items (group_by_description_and_mcc [exTxnSaved]) SORT_BY_SUM)).2.1 =
      (raw_fold (raw_sorted [exTxnSaved] SORT_BY_SUM)).1 -
        (raw_fold (raw_sorted [exTxnSaved] SORT_BY_SUM)).2.1) := by
  constructor <;> with_unfolding_all decide

/-- Claim C10 as amended: provided no transaction's kind is itself the
pseudo-label `"Saved with bonuses"`, the net figure of `format_aggregated`
(its displayed purchase total plus its bonuses total) and the net figure of
`format_raw_report`/`compute_purchase_totals` (purchase total minus bonuses
total) relate as claimed: they coincide exactly when the sum of
`"Purchase with bonuses"` amounts is zero and otherwise differ by exactly
twice that sum. -/
theorem claim_C10_amended (txns : List Txn) (sort_by : String)
    (hns : ∀ t ∈ txns, t.Description ≠ "Saved with bonuses") :
    (agg_fold (sorted_items (group_by_description_and_mcc txns) sort_by)).1 +
        (agg_fold (sorted_items (group_by_description_and_mcc txns) sort_by)).2.1 =
      (compute_purchase_totals txns).purchase_total +
        (compute_purchase_totals txns).bonuses_total ∧
    (raw_fold (raw_sorted txns sort_by)).1 - (raw_fold (raw_sorted txns sort_by)).2.1 =
      (compute_purchase_totals txns).purchase_total -
        (compute_purchase_totals txns).bonuses_total ∧
    (compute_purchase_totals txns).net_purchases =
      (compute_purchase_totals txns).purchase_total -
        (compute_purchase_totals txns).bonuses_total ∧
    ((agg_fold (sorted_items (group_by_description_and_mcc txns) sort_by)).1 +
          (agg_fold (sorted_items (group_by_description_and_mcc txns) sort_by)).2.1 =
        (raw_fold (raw_sorted txns sort_by)).1 - (raw_fold (raw_sorted txns sort_by)).2.1 ↔
      (compute_purchase_totals txns).bonuses_total = 0) ∧
    ((agg_fold (sorted_items (group_by_description_and_mcc txns) sort_by)).1 +
          (agg_fold (sorted_items (group_by_description_and_mcc txns) sort_by)).2.1) -
        ((raw_fold (raw_sorted txns sort_by)).1 -
          (raw_fold (raw_sorted txns sort_by)).2.1) =
      2 * (compute_purchase_totals txns).bonuses_total := by
  have hperm := sorted_items_perm (group_by_description_and_mcc txns) sort_by
  have hrperm := raw_sorted_perm txns sort_by
  obtain ⟨ha1, ha2⟩ := agg_fold_totals (sorted_items (group_by_description_and_mcc txns)
    sort_by)
  obtain ⟨hr1, hr2⟩ := raw_fold_totals (raw_sorted txns sort_by)
  have hP : (agg_fold (sorted_items (group_by_description_and_mcc txns) sort_by)).1 =
      (compute_purchase_totals txns).purchase_total := by
    rw [ha1, aggDescSum_perm _ _ _ hperm, group_by_description_and_mcc,
      aggDescSum_foldl_groupStep, descContrib_purchase_sum, compute_purchase_totals_spec]
    simp [aggDescSum]
  have hB : (agg_fold (sorted_items (group_by_description_and_mcc txns) sort_by)).2.1 =
      (compute_purchase_totals txns).bonuses_total := by
    rw [ha2, aggDescSum_perm _ _ _ hperm, group_by_description_and_mcc,
      aggDescSum_foldl_groupStep, descContrib_saved_sum txns hns, compute_purchase_totals_spec]
    simp [aggDescSum]
  have hrP : (raw_fold (raw_sorted txns sort_by)).1 =
      (compute_purchase_totals txns).purchase_total := by
    rw [hr1, sumWhere_perm _ _ hrperm, compute_purchase_totals_spec]
  have hrB : (raw_fold (raw_sorted txns sort_by)).2.1 =
      (compute_purchase_totals txns).bonuses_total := by
    rw [hr2, sumWhere_perm _ _ hrperm, compute_purchase_totals_spec]
  refine ⟨by rw [hP, hB], by rw [hrP, hrB], by rw [compute_purchase_totals_spec], ?_, ?_⟩
  · rw [hP, hB, hrP, hrB]
    constructor
    · intro h
      linarith
    · intro h
      rw [h]
      ring
  · rw [hP, hB, hrP, hrB]
    ring

theorem claim_C10_witness :
    (agg_fold (sorted_items (group_by_description_and_mcc [exTxnBonus]) SORT_BY_SUM)).1 +
        (agg_fold (sorted_items (group_by_description_and_mcc [exTxnBonus]) SORT_BY_SUM)).2.1 =
      (compute_purchase_totals [exTxnBonus]).purchase_total +
        (compute_purchase_totals [exTxnBonus]).bonuses_total :=
  (claim_C10_amended [exTxnBonus] SORT_BY_SUM (by decide)).1

end Budged

